import Mathlib

/-!
# Verification of the Solana exec application's transfer core

Shallow embedding of `src/errors.rs` and `src/transaction.rs`:
the decimal amount parser `parse_amount` and the transfer driver
`transfer_sol`.  Machine integers (`u64`) are modelled as `Nat` with
explicit `2 ^ 64` bounds at the checked operations; strings are modelled
at the character level (the repository's inputs of interest are ASCII,
where Rust's byte-level length and slicing agree with character counts).
The RPC client and the base58 `Pubkey::from_str` decoder are external
collaborators, modelled as function-valued parameters.
-/

namespace SolExec

/-- The error enum of `src/errors.rs`. -/
inductive Error where
  | DialogClosed
  | FetchBalanceError
  | InvalidFileType
  | FetchBlockhashError
  | TransactionError
  | InvalidAmount
  | InvalidPubKeyLen
  | InsufficientBalance
deriving DecidableEq, Repr

/-- `solana_sdk::native_token::LAMPORTS_PER_SOL`. -/
def LAMPORTS_PER_SOL : Nat := 1000000000

/-- One past the largest `u64` value; `u64::MAX = u64Size - 1`. -/
def u64Size : Nat := 2 ^ 64

/-- Rust `u64::checked_mul`: `none` exactly when the product overflows 64 bits. -/
def checked_mul (a b : Nat) : Option Nat :=
  if a * b < u64Size then some (a * b) else none

/-- Rust `u64::checked_add`: `none` exactly when the sum overflows 64 bits. -/
def checked_add (a b : Nat) : Option Nat :=
  if a + b < u64Size then some (a + b) else none

/-- Numeric value of a list of ASCII digit characters, most significant first. -/
def digitsToNat (l : List Char) : Nat :=
  l.foldl (fun a c => a * 10 + (c.toNat - 48)) 0

/-- Strip one leading `'+'`, as Rust's unsigned integer parser accepts. -/
def stripPlus : List Char → List Char
  | [] => []
  | c :: rest => if c = '+' then rest else c :: rest

/-- Rust `str::parse::<u64>()` on the characters of the string: an optional
leading `'+'` followed by a nonempty run of ASCII digits whose value fits in
64 bits; anything else (empty, other characters, overflow) fails. -/
def parseU64 (l : List Char) : Option Nat :=
  let body := stripPlus l
  if body ≠ [] ∧ body.all Char.isDigit = true then
    if digitsToNat body < u64Size then some (digitsToNat body) else none
  else
    none

/-- Rust `str::split('.')` at the character level: splits at every `'.'`,
keeping empty pieces, so the result always has (number of dots + 1) parts. -/
def splitDot : List Char → List (List Char)
  | [] => [[]]
  | c :: cs =>
    if c = '.' then [] :: splitDot cs
    else
      match splitDot cs with
      | [] => [[c]]
      | p :: ps => (c :: p) :: ps

/-- Rust `&s[..n]` on the characters of `s`: the characters occupying the
first `n` bytes of the UTF-8 encoding.  `none` models the byte-slice panic,
raised when byte index `n` is out of range or falls inside a multi-byte
character. -/
def takeBytes : List Char → Nat → Option (List Char)
  | _, 0 => some []
  | [], _ + 1 => none
  | c :: cs, n + 1 =>
    if c.utf8Size ≤ n + 1 then
      match takeBytes cs (n + 1 - c.utf8Size) with
      | some l => some (c :: l)
      | none => none
    else none

/-- `&format!("{:0<9}", s)[..9]`: right-pad with `'0'` to 9 characters
(`format!` width counts characters), then slice the first 9 bytes.  `none`
models the byte-slice panic when byte index 9 splits a multi-byte
character. -/
def padTruncate9 (l : List Char) : Option (List Char) :=
  takeBytes (l ++ List.replicate (9 - l.length) '0') 9

/-- `parse_amount` of `src/transaction.rs`: split the amount string on `'.'`;
one part means a whole-SOL amount, two parts mean integer plus fractional
part (padded/truncated to 9 bytes); any other number of parts is rejected.
Unparsable numerals default to zero; checked arithmetic failures surface as
`InvalidAmount`.  The outer `Option` models abnormal termination: `none` is
the process abort when the fractional byte slice panics. -/
def parse_amount (amount_str : String) : Option (Except Error Nat) :=
  match splitDot amount_str.data with
  | [intPart] =>
    let valid_integer := (parseU64 intPart).getD 0
    match checked_mul valid_integer LAMPORTS_PER_SOL with
    | some lamports => some (.ok lamports)
    | none => some (.error .InvalidAmount)
  | [intPart, fracPart] =>
    let integer := (parseU64 intPart).getD 0
    match padTruncate9 fracPart with
    | none => none
    | some fraction =>
      let fraction_value := (parseU64 fraction).getD 0
      match checked_mul integer LAMPORTS_PER_SOL with
      | none => some (.error .InvalidAmount)
      | some whole_amount =>
        match checked_add whole_amount fraction_value with
        | some lamports => some (.ok lamports)
        | none => some (.error .InvalidAmount)
  | _ => some (.error .InvalidAmount)

/-- Commitment levels of `solana_sdk::commitment_config` used by the code. -/
inductive Commitment where
  | processed
  | confirmed
  | finalized
deriving DecidableEq, Repr

/-- `solana_transaction_status::UiTransactionEncoding` (the variants used). -/
inductive UiTransactionEncoding where
  | base58
  | base64
deriving DecidableEq, Repr

/-- `solana_client::rpc_config::RpcSendTransactionConfig`. -/
structure RpcSendTransactionConfig where
  skip_preflight : Bool
  preflight_commitment : Option Commitment
  encoding : Option UiTransactionEncoding
  max_retries : Option Nat
  min_context_slot : Option Nat
deriving DecidableEq, Repr

/-- The send configuration literal built inside `transfer_sol`. -/
def send_cfg : RpcSendTransactionConfig :=
  { skip_preflight := true
    preflight_commitment := some .confirmed
    encoding := some .base64
    max_retries := some 3
    min_context_slot := none }

/-- 32-byte `solana_sdk::pubkey::Pubkey`, abstracted to an opaque identifier. -/
abbrev Pubkey := Nat

/-- The signer keypair, of which `transfer_sol` only uses the public key. -/
structure Keypair where
  pubkey : Pubkey
deriving DecidableEq, Repr

/-- `system_instruction::transfer(from, to, lamports)`. -/
structure TransferInstruction where
  source : Pubkey
  destination : Pubkey
  lamports : Nat
deriving DecidableEq, Repr

/-- A transaction as `transfer_sol` assembles it: instructions and fee payer
at construction, recent blockhash and signature added by `sign`. -/
structure Transaction where
  instructions : List TransferInstruction
  payer : Option Pubkey
  recentBlockhash : Option Nat
  isSigned : Bool
deriving DecidableEq, Repr

/-- `Transaction::new_with_payer`: unsigned, no blockhash yet. -/
def Transaction.new_with_payer (ixs : List TransferInstruction)
    (payer : Option Pubkey) : Transaction :=
  { instructions := ixs, payer := payer, recentBlockhash := none, isSigned := false }

/-- `tx.sign(&[&signer], blockhash)`: record the blockhash and mark signed. -/
def Transaction.sign (tx : Transaction) (blockhash : Nat) : Transaction :=
  { tx with recentBlockhash := some blockhash, isSigned := true }

/-- One observable RPC call made by `transfer_sol`. -/
inductive RpcEvent where
  | getLatestBlockhash (c : Commitment)
  | sendTransaction (cfg : RpcSendTransactionConfig)
  | confirmTransaction (signature : String) (c : Commitment)
deriving DecidableEq, Repr

/-- Outcome of one run of `transfer_sol`.  `panicked` models the process
abort caused by the unguarded `.unwrap()` on the pubkey parse; `polling`
means the confirmation loop was still running when the observation fuel ran
out (the Rust loop has no bound of its own). -/
inductive TransferOutcome where
  | ok (signature : String)
  | err (e : Error)
  | panicked
  | polling
deriving DecidableEq, Repr

/-- The RPC collaborator (`solana_client::nonblocking::rpc_client::RpcClient`)
as the oracle of its observable answers.  The extra `Nat` argument of the
confirmation query is the poll index, letting successive polls of the same
signature answer differently. -/
structure RpcClient where
  commitment : Commitment
  get_latest_blockhash_with_commitment : Commitment → Except Unit (Nat × Nat)
  send_transaction_with_config :
    Transaction → RpcSendTransactionConfig → Except Unit String
  confirm_transaction_with_commitment :
    String → Commitment → Nat → Except Unit Bool

/-- The fields of `SolExecApp` (src/main.rs) that `transfer_sol` reads; the
UI-only fields (path, error, signature, is_loading, current_frame) are
omitted as they are never touched by the transfer core. -/
structure SolExecApp where
  signer : Keypair
  rpc_client : RpcClient
  balance : Option Nat
  receiver_value : String × String

/-- The confirmation `loop` at the end of `transfer_sol`: query the status of
`signature` at `finalized` commitment; a query error aborts with
`TransactionError`, a positive confirmation succeeds, a negative one polls
again.  `fuel` bounds only the observation, not the loop: exhausting it
yields `polling`, i.e. the Rust loop would still be running. -/
def confirmLoop (rpc : RpcClient) (signature : String) :
    Nat → Nat → TransferOutcome × List RpcEvent
  | _, 0 => (.polling, [])
  | i, fuel + 1 =>
    match rpc.confirm_transaction_with_commitment signature .finalized i with
    | .error _ => (.err .TransactionError, [.confirmTransaction signature .finalized])
    | .ok true => (.ok signature, [.confirmTransaction signature .finalized])
    | .ok false =>
      let r := confirmLoop rpc signature (i + 1) fuel
      (r.1, .confirmTransaction signature .finalized :: r.2)

/-- The execution sequence of `transfer_sol` once every precondition has
passed (src/transaction.rs lines 69-120): build the transfer instruction and
transaction, fetch the latest blockhash at the client's configured
commitment, sign, submit with `send_cfg`, then poll for finalization. -/
def submit_and_confirm (values : SolExecApp) (to_pubkey : Pubkey)
    (amount_as_u64 : Nat) (fuel : Nat) : TransferOutcome × List RpcEvent :=
  let signer_pubkey := values.signer.pubkey
  let transfer_ix := TransferInstruction.mk signer_pubkey to_pubkey amount_as_u64
  let tx := Transaction.new_with_payer [transfer_ix] (some signer_pubkey)
  match values.rpc_client.get_latest_blockhash_with_commitment
      values.rpc_client.commitment with
  | .error _ =>
    (.err .FetchBlockhashError, [.getLatestBlockhash values.rpc_client.commitment])
  | .ok (blockhash_info, _) =>
    let tx := tx.sign blockhash_info
    match values.rpc_client.send_transaction_with_config tx send_cfg with
    | .error _ =>
      (.err .TransactionError,
        [.getLatestBlockhash values.rpc_client.commitment, .sendTransaction send_cfg])
    | .ok signature =>
      let r := confirmLoop values.rpc_client signature 0 fuel
      (r.1,
        .getLatestBlockhash values.rpc_client.commitment
          :: .sendTransaction send_cfg :: r.2)

/-- `transfer_sol` of `src/transaction.rs`.  `pubkey_from_str` is the
external base58 decoder `Pubkey::from_str`, passed as a parameter; its
failure hits the unguarded `.unwrap()` and aborts the process (`panicked`),
as does a panic inside `parse_amount`.  Returns the outcome together with
the trace of RPC calls performed. -/
def transfer_sol (pubkey_from_str : String → Option Pubkey)
    (values : SolExecApp) (fuel : Nat) : TransferOutcome × List RpcEvent :=
  let to_address_str := values.receiver_value.1
  if to_address_str.utf8ByteSize < 32 then
    (.err .InvalidPubKeyLen, [])
  else
    match pubkey_from_str to_address_str with
    | none => (.panicked, [])
    | some to_pubkey =>
      match parse_amount values.receiver_value.2 with
      | none => (.panicked, [])
      | some (.error e) => (.err e, [])
      | some (.ok amount_as_u64) =>
        if amount_as_u64 ≤ 0 then
          (.err .InvalidAmount, [])
        else if values.balance.getD 0 < amount_as_u64 then
          (.err .InsufficientBalance, [])
        else
          submit_and_confirm values to_pubkey amount_as_u64 fuel

example : parse_amount "1" = some (.ok 1000000000) := rfl
example : parse_amount "0.5" = some (.ok 500000000) := rfl
example : parse_amount "0.000000001" = some (.ok 1) := rfl
example : parse_amount "3.14" = some (.ok 3140000000) := rfl
example : parse_amount "1.2.3" = some (.error .InvalidAmount) := rfl
example : parse_amount ".5" = some (.ok 500000000) := rfl
example : parse_amount "1." = some (.ok 1000000000) := rfl
example : parse_amount "." = some (.ok 0) := rfl
example : parse_amount "1.2a" = some (.ok 1000000000) := rfl
example : parse_amount "99999999999999999999" = some (.ok 0) := rfl
example : parse_amount "18446744073709551615" = some (.error .InvalidAmount) := rfl
example : parse_amount "1.123456789x" = some (.ok 1123456789) := rfl
example : parse_amount "1.+1" = some (.ok 1010000000) := rfl
example : parse_amount "1.12345678é" = none := rfl
example : parse_amount "1.é" = some (.ok 1000000000) := rfl
example : parse_amount "1.123456é9" = some (.ok 1000000000) := rfl
example : parse_amount "1.1234567é" = some (.ok 1000000000) := rfl

example :
    transfer_sol (fun _ => some 1)
      { signer := ⟨0⟩
        rpc_client :=
          { commitment := .confirmed
            get_latest_blockhash_with_commitment := fun _ => .ok (7, 0)
            send_transaction_with_config := fun _ _ => .ok "sig"
            confirm_transaction_with_commitment := fun _ _ i => .ok (1 ≤ i) }
        balance := some 1000000000
        receiver_value := ("aaaaaaaaaaaaaaaaaaaaaaaaaaaaaaaa", "1") } 3 =
    (.ok "sig",
      [.getLatestBlockhash .confirmed, .sendTransaction send_cfg,
        .confirmTransaction "sig" .finalized, .confirmTransaction "sig" .finalized]) := by
  rfl

example :
    transfer_sol (fun _ => some 1)
      { signer := ⟨0⟩
        rpc_client :=
          { commitment := .confirmed
            get_latest_blockhash_with_commitment := fun _ => .error ()
            send_transaction_with_config := fun _ _ => .ok "sig"
            confirm_transaction_with_commitment := fun _ _ _ => .ok true }
        balance := some 1000000000
        receiver_value := ("aaaaaaaaaaaaaaaaaaaaaaaaaaaaaaaa", "1") } 3 =
    (.err .FetchBlockhashError, [.getLatestBlockhash .confirmed]) := by
  rfl

/-! ## Lemmas about the splitting and numeral-parsing helpers -/

theorem splitDot_ne_nil (l : List Char) : splitDot l ≠ [] := by
  cases l with
  | nil => simp [splitDot]
  | cons c cs =>
    by_cases hc : c = '.'
    · simp [splitDot, hc]
    · rcases hsp : splitDot cs with _ | ⟨p, ps⟩ <;> simp [splitDot, hc, hsp]

theorem splitDot_length (l : List Char) :
    (splitDot l).length = l.count '.' + 1 := by
  induction l with
  | nil => rfl
  | cons c cs ih =>
    by_cases hc : c = '.'
    · subst hc
      simp [splitDot, List.count_cons, ih]
    · rcases hsp : splitDot cs with _ | ⟨p, ps⟩
      · exact absurd hsp (splitDot_ne_nil cs)
      · rw [hsp] at ih
        simp only [splitDot, if_neg hc, hsp, List.length_cons, List.count_cons] at *
        simp [hc, Ne.symm hc] at *
        omega

theorem splitDot_no_dot (l : List Char) (h : '.' ∉ l) : splitDot l = [l] := by
  induction l with
  | nil => rfl
  | cons c cs ih =>
    have hc : c ≠ '.' := fun hh => h (hh ▸ List.mem_cons_self c cs)
    have hcs : '.' ∉ cs := fun hh => h (List.mem_cons_of_mem _ hh)
    simp [splitDot, hc, ih hcs]

theorem splitDot_append (a b : List Char) (h : '.' ∉ a) :
    splitDot (a ++ '.' :: b) = a :: splitDot b := by
  induction a with
  | nil => simp [splitDot]
  | cons c cs ih =>
    have hc : c ≠ '.' := fun hh => h (hh ▸ List.mem_cons_self c cs)
    have hcs : '.' ∉ cs := fun hh => h (List.mem_cons_of_mem _ hh)
    simp [splitDot, hc, ih hcs]

theorem stripPlus_all_digits (l : List Char) (hd : l.all Char.isDigit = true) :
    stripPlus l = l := by
  cases l with
  | nil => rfl
  | cons c cs =>
    have h1 : c.isDigit = true := by
      simp [List.all_cons] at hd
      exact hd.1
    have : c ≠ '+' := by
      intro hh
      rw [hh] at h1
      exact absurd h1 (by decide)
    simp [stripPlus, this]

theorem parseU64_all_digits (l : List Char) (hne : l ≠ [])
    (hd : l.all Char.isDigit = true) :
    parseU64 l = if digitsToNat l < u64Size then some (digitsToNat l) else none := by
  simp [parseU64, stripPlus_all_digits l hd, hne, hd]

theorem checked_mul_eq_some (a b c : Nat) :
    checked_mul a b = some c ↔ a * b < u64Size ∧ a * b = c := by
  unfold checked_mul
  constructor
  · intro h
    split at h
    · injection h with h'
      exact ⟨‹_›, h'⟩
    · cases h
  · rintro ⟨h1, rfl⟩
    rw [if_pos h1]

theorem checked_add_eq_some (a b c : Nat) :
    checked_add a b = some c ↔ a + b < u64Size ∧ a + b = c := by
  unfold checked_add
  constructor
  · intro h
    split at h
    · injection h with h'
      exact ⟨‹_›, h'⟩
    · cases h
  · rintro ⟨h1, rfl⟩
    rw [if_pos h1]

theorem parseU64_lt (l : List Char) (v : Nat) (h : parseU64 l = some v) :
    v < u64Size := by
  simp only [parseU64] at h
  split at h
  · split at h
    · injection h with h'
      omega
    · cases h
  · cases h

theorem parse_amount_ok_lt (s : String) (v : Nat)
    (h : parse_amount s = some (.ok v)) : v < u64Size := by
  unfold parse_amount at h
  split at h
  · next ip hip =>
    dsimp only at h
    rcases hm : checked_mul ((parseU64 ip).getD 0) LAMPORTS_PER_SOL with _ | w
    · rw [hm] at h
      simp at h
    · rw [hm] at h
      obtain ⟨h1, h2⟩ := (checked_mul_eq_some _ _ _).mp hm
      simp at h
      omega
  · next ip fp hip =>
    dsimp only at h
    rcases hq : padTruncate9 fp with _ | fr
    · rw [hq] at h
      simp at h
    · rw [hq] at h
      dsimp only at h
      rcases hm : checked_mul ((parseU64 ip).getD 0) LAMPORTS_PER_SOL with _ | w
      · rw [hm] at h
        simp at h
      · rw [hm] at h
        dsimp only at h
        rcases ha : checked_add w ((parseU64 fr).getD 0) with _ | u
        · rw [ha] at h
          simp at h
        · rw [ha] at h
          obtain ⟨h1, h2⟩ := (checked_add_eq_some _ _ _).mp ha
          simp at h
          omega
  · simp at h

/-! ## Claim theorems about the amount parser -/

/-- C1 (amended): on every amount string with exactly one decimal point
whose padded fractional part slices at a character boundary, `parse_amount`
returns the integer part (zero-defaulted) scaled by `10 ^ 9` plus the sliced
fractional numeral (zero-defaulted), and fails with `InvalidAmount` exactly
when the scaling multiplication or the final addition overflows 64 bits;
when byte 9 of the padded fractional part splits a multi-byte character, the
byte slice panics and the whole operation aborts instead. -/
theorem parse_amount_single_dot_spec (s : String) (h : s.data.count '.' = 1) :
    ∃ p q, splitDot s.data = [p, q] ∧
      (∀ fr, padTruncate9 q = some fr →
        ((parseU64 p).getD 0 * LAMPORTS_PER_SOL + (parseU64 fr).getD 0 < u64Size →
          parse_amount s =
            some (.ok ((parseU64 p).getD 0 * LAMPORTS_PER_SOL
              + (parseU64 fr).getD 0))) ∧
        (u64Size ≤ (parseU64 p).getD 0 * LAMPORTS_PER_SOL + (parseU64 fr).getD 0 →
          parse_amount s = some (.error .InvalidAmount))) ∧
      (padTruncate9 q = none → parse_amount s = none) := by
  have hlen : (splitDot s.data).length = 2 := by
    rw [splitDot_length, h]
  obtain ⟨p, q, hpq⟩ := List.length_eq_two.mp hlen
  refine ⟨p, q, hpq, ?_, ?_⟩
  · intro fr hfr
    constructor
    · intro hbound
      have h1 : (parseU64 p).getD 0 * LAMPORTS_PER_SOL < u64Size := by omega
      unfold parse_amount
      rw [hpq]
      simp [hfr, checked_mul, checked_add, h1, hbound]
    · intro hbound
      unfold parse_amount
      rw [hpq]
      by_cases h1 : (parseU64 p).getD 0 * LAMPORTS_PER_SOL < u64Size
      · have h2 : ¬ ((parseU64 p).getD 0 * LAMPORTS_PER_SOL
            + (parseU64 fr).getD 0 < u64Size) := by omega
        simp [hfr, checked_mul, checked_add, h1, h2]
      · simp [hfr, checked_mul, h1]
  · intro hnone
    unfold parse_amount
    rw [hpq]
    simp [hnone]

/-- C1 witness at the concrete amount string `"3.14"`. -/
theorem parse_amount_single_dot_spec_witness :
    "3.14".data.count '.' = 1 ∧
      ∃ p q, splitDot "3.14".data = [p, q] ∧
        (∀ fr, padTruncate9 q = some fr →
          ((parseU64 p).getD 0 * LAMPORTS_PER_SOL + (parseU64 fr).getD 0 < u64Size →
            parse_amount "3.14" =
              some (.ok ((parseU64 p).getD 0 * LAMPORTS_PER_SOL
                + (parseU64 fr).getD 0))) ∧
          (u64Size ≤ (parseU64 p).getD 0 * LAMPORTS_PER_SOL + (parseU64 fr).getD 0 →
            parse_amount "3.14" = some (.error .InvalidAmount))) ∧
        (padTruncate9 q = none → parse_amount "3.14" = none) :=
  ⟨by decide, parse_amount_single_dot_spec "3.14" (by decide)⟩

/-- C1 counterexample: `"1.12345678é"` contains exactly one decimal point,
but byte index 9 of its fractional part falls inside the two-byte `'é'`, so
the byte slice panics and the program aborts: `parse_amount` neither returns
the padded-fraction value nor `InvalidAmount` there. -/
theorem parse_amount_single_dot_panics :
    "1.12345678é".data.count '.' = 1 ∧
    padTruncate9 ['1', '2', '3', '4', '5', '6', '7', '8', 'é'] = none ∧
    parse_amount "1.12345678é" = none :=
  ⟨by decide, rfl, rfl⟩

/-- C7 (amended): on every amount string without a decimal point,
`parse_amount` scales the zero-defaulted integer parse of the whole string by
`10 ^ 9` and fails with `InvalidAmount` exactly when that multiplication
overflows 64 bits.  A 20-digit integer part therefore fails only when its
value still fits in 64 bits: `u64::MAX` itself overflows the scaling and
fails, while a 20-digit part beyond `u64::MAX` is unparsable, defaults to
zero, and succeeds with result `0`. -/
theorem parse_amount_no_dot_spec (s : String) (h : s.data.count '.' = 0) :
    ((parseU64 s.data).getD 0 * LAMPORTS_PER_SOL < u64Size →
      parse_amount s = some (.ok ((parseU64 s.data).getD 0 * LAMPORTS_PER_SOL))) ∧
    (u64Size ≤ (parseU64 s.data).getD 0 * LAMPORTS_PER_SOL →
      parse_amount s = some (.error .InvalidAmount)) ∧
    parse_amount "18446744073709551615" = some (.error .InvalidAmount) ∧
    parse_amount "99999999999999999999" = some (.ok 0) := by
  have hnd : '.' ∉ s.data := by
    rw [← List.count_eq_zero]
    exact h
  have hsp := splitDot_no_dot s.data hnd
  refine ⟨?_, ?_, rfl, rfl⟩
  · intro h1
    unfold parse_amount
    rw [hsp]
    simp [checked_mul, h1]
  · intro h1
    have h2 : ¬ ((parseU64 s.data).getD 0 * LAMPORTS_PER_SOL < u64Size) := by omega
    unfold parse_amount
    rw [hsp]
    simp [checked_mul, h2]

/-- C7 witness at the concrete amount string `"1"`. -/
theorem parse_amount_no_dot_spec_witness :
    "1".data.count '.' = 0 ∧ parse_amount "1" = some (.ok 1000000000) :=
  ⟨by decide, (parse_amount_no_dot_spec "1" (by decide)).1 (by decide)⟩

/-- C7 counterexample: the 20-digit integer part `99999999999999999999`
exceeds `u64::MAX`, so Rust's `u64` parse fails, the zero default applies,
and `parse_amount` succeeds with `0` instead of failing with
`InvalidAmount`. -/
theorem parse_amount_twenty_digits_ok_zero :
    "99999999999999999999".data.length = 20 ∧
    "99999999999999999999".data.all Char.isDigit = true ∧
    "99999999999999999999".data.count '.' = 0 ∧
    parse_amount "99999999999999999999" = some (.ok 0) :=
  ⟨by decide, by decide, by decide, rfl⟩

/-- C9: `parse_amount` on the spec's worked examples, and rejection of every
input with more than one decimal point. -/
theorem parse_amount_spec_examples :
    parse_amount "1" = some (.ok 1000000000) ∧
    parse_amount "0.5" = some (.ok 500000000) ∧
    parse_amount "0.000000001" = some (.ok 1) ∧
    parse_amount "3.14" = some (.ok 3140000000) ∧
    parse_amount "1.2.3" = some (.error .InvalidAmount) ∧
    ∀ s : String, 2 ≤ s.data.count '.' →
      parse_amount s = some (.error .InvalidAmount) := by
  refine ⟨rfl, rfl, rfl, rfl, rfl, ?_⟩
  intro s hs
  have hlen : 3 ≤ (splitDot s.data).length := by
    rw [splitDot_length]
    omega
  rcases hsp : splitDot s.data with _ | ⟨a, _ | ⟨b, _ | ⟨c, rest⟩⟩⟩ <;>
    rw [hsp] at hlen <;> simp at hlen
  unfold parse_amount
  rw [hsp]

/-- C9 witness at the concrete multi-dot input `"1.2.3"`. -/
theorem parse_amount_spec_examples_witness :
    parse_amount "1.2.3" = some (.error .InvalidAmount) :=
  parse_amount_spec_examples.2.2.2.2.2 "1.2.3" (by decide)

/-- C10 (amended): on inputs with a single decimal point, an empty or
non-numeric piece defaults to zero — `".5"`, `"1."`, `"."`, `"1.2a"` behave
as listed — and whenever the fractional byte slice succeeds but the sliced
numeral fails to parse as an unsigned integer, the fractional contribution
is wholly zero.  A non-digit truncated away at or beyond the 10th character
does not zero it, and a multi-byte character split by byte index 9 aborts
the program instead of zeroing. -/
theorem parse_amount_fraction_zero_default :
    parse_amount ".5" = some (.ok 500000000) ∧
    parse_amount "1." = some (.ok 1000000000) ∧
    parse_amount "." = some (.ok 0) ∧
    parse_amount "1.2a" = some (.ok 1000000000) ∧
    ∀ (s : String) (p q fr : List Char), splitDot s.data = [p, q] →
      padTruncate9 q = some fr →
      parseU64 fr = none →
      (parseU64 p).getD 0 * LAMPORTS_PER_SOL < u64Size →
      parse_amount s = some (.ok ((parseU64 p).getD 0 * LAMPORTS_PER_SOL)) := by
  refine ⟨rfl, rfl, rfl, rfl, ?_⟩
  intro s p q fr hpq hfr hq hbound
  unfold parse_amount
  rw [hpq]
  simp [hfr, hq, checked_mul, checked_add, hbound]

/-- C10 witness: the fractional part `"xy"` slices cleanly, fails to parse
and contributes zero, at the concrete amount string `"2.xy"`. -/
theorem parse_amount_fraction_zero_default_witness :
    parse_amount "2.xy" = some (.ok 2000000000) :=
  parse_amount_fraction_zero_default.2.2.2.2 "2.xy" "2".data "xy".data
    ['x', 'y', '0', '0', '0', '0', '0', '0', '0'] rfl rfl (by decide) (by decide)

/-- C10 counterexample: two fractional parts containing a non-digit that are
not wholly zeroed.  In `"1.123456789x"` the `'x'` sits beyond the 9th
character, is truncated away, and the nine digits contribute in full; in
`"7.12345678é"` byte index 9 splits the two-byte `'é'` and the program
aborts instead of returning the zero-fraction value. -/
theorem parse_amount_truncation_beats_zeroing :
    (splitDot "1.123456789x".data =
      [['1'], ['1', '2', '3', '4', '5', '6', '7', '8', '9', 'x']] ∧
     'x' ∈ ['1', '2', '3', '4', '5', '6', '7', '8', '9', 'x'] ∧
     'x'.isDigit = false ∧
     parse_amount "1.123456789x" = some (.ok 1123456789) ∧
     (1123456789 : Nat) ≠ 1 * LAMPORTS_PER_SOL + 0) ∧
    (splitDot "7.12345678é".data =
      [['7'], ['1', '2', '3', '4', '5', '6', '7', '8', 'é']] ∧
     'é' ∈ ['1', '2', '3', '4', '5', '6', '7', '8', 'é'] ∧
     'é'.isDigit = false ∧
     parse_amount "7.12345678é" = none) :=
  ⟨⟨rfl, by decide, by decide, rfl, by decide⟩,
    ⟨rfl, by decide, by decide, rfl⟩⟩

/-! ## Claim theorems about the transfer executor's precondition checks -/

/-- C5: a destination string shorter than 32 bytes fails with
`InvalidPubKeyLen` regardless of the amount string and of the known balance:
the length check runs first and short-circuits everything else. -/
theorem transfer_sol_short_address (pubkey_from_str : String → Option Pubkey)
    (values : SolExecApp) (fuel : Nat)
    (h : values.receiver_value.1.utf8ByteSize < 32) :
    transfer_sol pubkey_from_str values fuel = (.err .InvalidPubKeyLen, []) ∧
    ∀ (amt : String) (bal : Option Nat),
      transfer_sol pubkey_from_str
        { values with receiver_value := (values.receiver_value.1, amt)
                      balance := bal } fuel =
      (.err .InvalidPubKeyLen, []) := by
  constructor
  · simp [transfer_sol, h]
  · intro amt bal
    simp [transfer_sol, h]

/-- C3: with a destination of at least 32 bytes that the address decoder
rejects, `transfer_sol` does not return a typed error: the unguarded
`.unwrap()` aborts the whole operation, and it does so before the amount
string is ever parsed — every amount string gives the same abort. -/
theorem transfer_sol_pubkey_unwrap_aborts (pubkey_from_str : String → Option Pubkey)
    (values : SolExecApp) (fuel : Nat)
    (h32 : ¬ values.receiver_value.1.utf8ByteSize < 32)
    (hpk : pubkey_from_str values.receiver_value.1 = none) :
    transfer_sol pubkey_from_str values fuel = (.panicked, []) ∧
    ∀ amt : String,
      transfer_sol pubkey_from_str
        { values with receiver_value := (values.receiver_value.1, amt) } fuel =
      (.panicked, []) := by
  constructor
  · simp [transfer_sol, h32, hpk]
  · intro amt
    simp [transfer_sol, h32, hpk]

/-- C4: once the length check and the address parse pass, a parsed amount of
zero fails with `InvalidAmount`; a known balance (zero when absent) strictly
below the parsed amount fails with `InsufficientBalance`; a known balance
equal to the parsed amount proceeds past the balance check into the
submission sequence. -/
theorem transfer_sol_amount_balance_checks (pubkey_from_str : String → Option Pubkey)
    (values : SolExecApp) (fuel : Nat) (pk : Pubkey)
    (h32 : ¬ values.receiver_value.1.utf8ByteSize < 32)
    (hpk : pubkey_from_str values.receiver_value.1 = some pk) :
    (parse_amount values.receiver_value.2 = some (.ok 0) →
      transfer_sol pubkey_from_str values fuel = (.err .InvalidAmount, [])) ∧
    (∀ a, parse_amount values.receiver_value.2 = some (.ok a) → 0 < a →
      values.balance.getD 0 < a →
      transfer_sol pubkey_from_str values fuel = (.err .InsufficientBalance, [])) ∧
    (∀ a, parse_amount values.receiver_value.2 = some (.ok a) → 0 < a →
      values.balance.getD 0 = a →
      transfer_sol pubkey_from_str values fuel = submit_and_confirm values pk a fuel) := by
  refine ⟨?_, ?_, ?_⟩
  · intro hamt
    simp [transfer_sol, h32, hpk, hamt]
  · intro a hamt hpos hbal
    have hle : ¬ a ≤ 0 := by omega
    simp [transfer_sol, h32, hpk, hamt, hle, hbal]
  · intro a hamt hpos hbal
    have hle : ¬ a ≤ 0 := by omega
    have hlt : ¬ values.balance.getD 0 < a := by omega
    simp [transfer_sol, h32, hpk, hamt, hle, hlt]

/-- C6: when every precondition passes and the blockhash fetch answers with
an error, `transfer_sol` returns `FetchBlockhashError` and its RPC trace
contains no submission call. -/
theorem transfer_sol_blockhash_fetch_error (pubkey_from_str : String → Option Pubkey)
    (values : SolExecApp) (fuel : Nat) (pk : Pubkey) (a : Nat)
    (h32 : ¬ values.receiver_value.1.utf8ByteSize < 32)
    (hpk : pubkey_from_str values.receiver_value.1 = some pk)
    (hamt : parse_amount values.receiver_value.2 = some (.ok a))
    (hpos : 0 < a)
    (hbal : a ≤ values.balance.getD 0)
    (hbh : values.rpc_client.get_latest_blockhash_with_commitment
        values.rpc_client.commitment = .error ()) :
    transfer_sol pubkey_from_str values fuel =
      (.err .FetchBlockhashError,
        [.getLatestBlockhash values.rpc_client.commitment]) ∧
    ∀ cfg : RpcSendTransactionConfig,
      RpcEvent.sendTransaction cfg ∉ (transfer_sol pubkey_from_str values fuel).2 := by
  have hle : ¬ a ≤ 0 := by omega
  have hlt : ¬ values.balance.getD 0 < a := by omega
  have h1 : transfer_sol pubkey_from_str values fuel =
      (.err .FetchBlockhashError,
        [.getLatestBlockhash values.rpc_client.commitment]) := by
    simp [transfer_sol, submit_and_confirm, h32, hpk, hamt, hle, hlt, hbh]
  refine ⟨h1, ?_⟩
  intro cfg
  rw [h1]
  simp

/-! ## Concrete fixtures used by the executor witnesses -/

/-- A base58 decoder that accepts every address. -/
def pubkeyDecodeOk : String → Option Pubkey := fun _ => some 1

/-- A base58 decoder that rejects every address. -/
def pubkeyDecodeFail : String → Option Pubkey := fun _ => none

/-- A 32-byte ASCII destination address. -/
def addr32 : String := "aaaaaaaaaaaaaaaaaaaaaaaaaaaaaaaa"

/-- An RPC oracle that answers every call positively. -/
def rpcAllOk : RpcClient :=
  { commitment := .confirmed
    get_latest_blockhash_with_commitment := fun _ => .ok (7, 0)
    send_transaction_with_config := fun _ _ => .ok "sig"
    confirm_transaction_with_commitment := fun _ _ _ => .ok true }

/-- The all-positive oracle with the blockhash fetch failing. -/
def rpcNoBlockhash : RpcClient :=
  { rpcAllOk with get_latest_blockhash_with_commitment := fun _ => .error () }

/-- C5 witness at a 3-byte destination. -/
theorem transfer_sol_short_address_witness :
    ("abc" : String).utf8ByteSize < 32 ∧
    transfer_sol pubkeyDecodeOk
      { signer := ⟨0⟩, rpc_client := rpcAllOk, balance := some 5
        receiver_value := ("abc", "1") } 1 =
      (.err .InvalidPubKeyLen, []) :=
  ⟨by decide,
    (transfer_sol_short_address pubkeyDecodeOk
      { signer := ⟨0⟩, rpc_client := rpcAllOk, balance := some 5
        receiver_value := ("abc", "1") } 1 (by decide)).1⟩

/-- C3 witness at a 32-byte destination whose decode fails. -/
theorem transfer_sol_pubkey_unwrap_aborts_witness :
    ¬ addr32.utf8ByteSize < 32 ∧
    transfer_sol pubkeyDecodeFail
      { signer := ⟨0⟩, rpc_client := rpcAllOk, balance := some 5
        receiver_value := (addr32, "1") } 1 =
      (.panicked, []) :=
  ⟨by decide,
    (transfer_sol_pubkey_unwrap_aborts pubkeyDecodeFail
      { signer := ⟨0⟩, rpc_client := rpcAllOk, balance := some 5
        receiver_value := (addr32, "1") } 1 (by decide) rfl).1⟩

/-- C4 witness: balance 100 SOL against a parsed amount of 101 SOL fails
with `InsufficientBalance`. -/
theorem transfer_sol_amount_balance_checks_witness :
    transfer_sol pubkeyDecodeOk
      { signer := ⟨0⟩, rpc_client := rpcAllOk, balance := some 100000000000
        receiver_value := (addr32, "101") } 1 =
      (.err .InsufficientBalance, []) :=
  (transfer_sol_amount_balance_checks pubkeyDecodeOk
      { signer := ⟨0⟩, rpc_client := rpcAllOk, balance := some 100000000000
        receiver_value := (addr32, "101") } 1 1 (by decide) rfl).2.1
    101000000000 rfl (by decide) (by decide)

/-- C6 witness: a failing blockhash fetch yields `FetchBlockhashError` with a
trace of exactly one RPC call, the blockhash request. -/
theorem transfer_sol_blockhash_fetch_error_witness :
    transfer_sol pubkeyDecodeOk
      { signer := ⟨0⟩, rpc_client := rpcNoBlockhash, balance := some 1000000000
        receiver_value := (addr32, "1") } 1 =
      (.err .FetchBlockhashError, [.getLatestBlockhash .confirmed]) :=
  (transfer_sol_blockhash_fetch_error pubkeyDecodeOk
      { signer := ⟨0⟩, rpc_client := rpcNoBlockhash, balance := some 1000000000
        receiver_value := (addr32, "1") } 1 1 1000000000 (by decide) rfl rfl
      (by decide) (by decide) rfl).1

/-! ## The confirmation loop -/

theorem confirmLoop_polling (rpc : RpcClient) (sig : String) :
    ∀ (fuel i : Nat),
      (∀ j, j < fuel →
        rpc.confirm_transaction_with_commitment sig .finalized (i + j) = .ok false) →
      confirmLoop rpc sig i fuel =
        (.polling, List.replicate fuel (.confirmTransaction sig .finalized)) := by
  intro fuel
  induction fuel with
  | zero => intro i h; rfl
  | succ f ih =>
    intro i h
    have h0 := h 0 (Nat.succ_pos f)
    rw [Nat.add_zero] at h0
    have hrec := ih (i + 1) (fun j hj => by
      have := h (j + 1) (by omega)
      rwa [show i + (j + 1) = i + 1 + j by omega] at this)
    simp [confirmLoop, h0, hrec, List.replicate_succ]

theorem confirmLoop_stops_error (rpc : RpcClient) (sig : String) :
    ∀ (fuel i k : Nat), k < fuel →
      (∀ j, j < k →
        rpc.confirm_transaction_with_commitment sig .finalized (i + j) = .ok false) →
      rpc.confirm_transaction_with_commitment sig .finalized (i + k) = .error () →
      (confirmLoop rpc sig i fuel).1 = .err .TransactionError := by
  intro fuel
  induction fuel with
  | zero => intro i k hk; omega
  | succ f ih =>
    intro i k hk hfalse herr
    cases k with
    | zero =>
      rw [Nat.add_zero] at herr
      simp [confirmLoop, herr]
    | succ k' =>
      have h0 := hfalse 0 (Nat.succ_pos k')
      rw [Nat.add_zero] at h0
      have hrec := ih (i + 1) k' (by omega)
        (fun j hj => by
          have := hfalse (j + 1) (by omega)
          rwa [show i + (j + 1) = i + 1 + j by omega] at this)
        (by rwa [show i + (k' + 1) = i + 1 + k' by omega] at herr)
      simp [confirmLoop, h0, hrec]

theorem confirmLoop_stops_confirmed (rpc : RpcClient) (sig : String) :
    ∀ (fuel i k : Nat), k < fuel →
      (∀ j, j < k →
        rpc.confirm_transaction_with_commitment sig .finalized (i + j) = .ok false) →
      rpc.confirm_transaction_with_commitment sig .finalized (i + k) = .ok true →
      (confirmLoop rpc sig i fuel).1 = .ok sig := by
  intro fuel
  induction fuel with
  | zero => intro i k hk; omega
  | succ f ih =>
    intro i k hk hfalse hconf
    cases k with
    | zero =>
      rw [Nat.add_zero] at hconf
      simp [confirmLoop, hconf]
    | succ k' =>
      have h0 := hfalse 0 (Nat.succ_pos k')
      rw [Nat.add_zero] at h0
      have hrec := ih (i + 1) k' (by omega)
        (fun j hj => by
          have := hfalse (j + 1) (by omega)
          rwa [show i + (j + 1) = i + 1 + j by omega] at this)
        (by rwa [show i + (k' + 1) = i + 1 + k' by omega] at hconf)
      simp [confirmLoop, h0, hrec]

theorem confirmLoop_events (rpc : RpcClient) (sig : String) :
    ∀ (fuel i : Nat) (s : String) (c : Commitment),
      RpcEvent.confirmTransaction s c ∈ (confirmLoop rpc sig i fuel).2 →
      c = .finalized := by
  intro fuel
  induction fuel with
  | zero =>
    intro i s c h
    simp [confirmLoop] at h
  | succ f ih =>
    intro i s c h
    rcases hc : rpc.confirm_transaction_with_commitment sig .finalized i with _ | b
    · simp [confirmLoop, hc] at h
      exact h.2
    · cases b
      · simp [confirmLoop, hc] at h
        rcases h with ⟨_, rfl⟩ | h
        · rfl
        · exact ih (i + 1) s c h
      · simp [confirmLoop, hc] at h
        exact h.2

/-- C2: after the preconditions and the blockhash fetch succeed,
`transfer_sol` submits once; a failed submission returns `TransactionError`.
After a successful submission it polls the confirmation status, always at
`finalized` commitment: the first query answering with an error yields
`TransactionError`, the first positive confirmation yields the signature,
and as long as every query reports not-yet-confirmed the loop is still
polling at every observation bound, with no iteration limit of its own. -/
theorem transfer_sol_confirmation_poll (pubkey_from_str : String → Option Pubkey)
    (values : SolExecApp) (fuel : Nat) (pk : Pubkey) (a bh bhh : Nat)
    (h32 : ¬ values.receiver_value.1.utf8ByteSize < 32)
    (hpk : pubkey_from_str values.receiver_value.1 = some pk)
    (hamt : parse_amount values.receiver_value.2 = some (.ok a))
    (hpos : 0 < a)
    (hbal : a ≤ values.balance.getD 0)
    (hbh : values.rpc_client.get_latest_blockhash_with_commitment
        values.rpc_client.commitment = .ok (bh, bhh)) :
    (values.rpc_client.send_transaction_with_config
        ((Transaction.new_with_payer
          [TransferInstruction.mk values.signer.pubkey pk a]
          (some values.signer.pubkey)).sign bh) send_cfg = .error () →
      transfer_sol pubkey_from_str values fuel =
        (.err .TransactionError,
          [.getLatestBlockhash values.rpc_client.commitment,
            .sendTransaction send_cfg])) ∧
    ∀ sig : String,
      values.rpc_client.send_transaction_with_config
        ((Transaction.new_with_payer
          [TransferInstruction.mk values.signer.pubkey pk a]
          (some values.signer.pubkey)).sign bh) send_cfg = .ok sig →
      ((∀ k, k < fuel →
          (∀ j, j < k →
            values.rpc_client.confirm_transaction_with_commitment sig .finalized j =
              .ok false) →
          values.rpc_client.confirm_transaction_with_commitment sig .finalized k =
            .error () →
          (transfer_sol pubkey_from_str values fuel).1 = .err .TransactionError) ∧
       (∀ k, k < fuel →
          (∀ j, j < k →
            values.rpc_client.confirm_transaction_with_commitment sig .finalized j =
              .ok false) →
          values.rpc_client.confirm_transaction_with_commitment sig .finalized k =
            .ok true →
          (transfer_sol pubkey_from_str values fuel).1 = .ok sig) ∧
       ((∀ j, j < fuel →
          values.rpc_client.confirm_transaction_with_commitment sig .finalized j =
            .ok false) →
          (transfer_sol pubkey_from_str values fuel).1 = .polling) ∧
       (∀ (s : String) (c : Commitment),
          RpcEvent.confirmTransaction s c ∈ (transfer_sol pubkey_from_str values fuel).2 →
          c = .finalized)) := by
  have hle : ¬ a ≤ 0 := by omega
  have hlt : ¬ values.balance.getD 0 < a := by omega
  have hts : transfer_sol pubkey_from_str values fuel = submit_and_confirm values pk a fuel := by
    simp [transfer_sol, h32, hpk, hamt, hle, hlt]
  constructor
  · intro hsend
    rw [hts]
    simp [submit_and_confirm, hbh, hsend]
  · intro sig hsend
    have hloop : transfer_sol pubkey_from_str values fuel =
        ((confirmLoop values.rpc_client sig 0 fuel).1,
          .getLatestBlockhash values.rpc_client.commitment
            :: .sendTransaction send_cfg
            :: (confirmLoop values.rpc_client sig 0 fuel).2) := by
      rw [hts]
      simp [submit_and_confirm, hbh, hsend]
    refine ⟨?_, ?_, ?_, ?_⟩
    · intro k hk hfalse herr
      rw [hloop]
      exact confirmLoop_stops_error values.rpc_client sig fuel 0 k hk
        (fun j hj => by rw [Nat.zero_add]; exact hfalse j hj)
        (by rw [Nat.zero_add]; exact herr)
    · intro k hk hfalse hconf
      rw [hloop]
      exact confirmLoop_stops_confirmed values.rpc_client sig fuel 0 k hk
        (fun j hj => by rw [Nat.zero_add]; exact hfalse j hj)
        (by rw [Nat.zero_add]; exact hconf)
    · intro hfalse
      rw [hloop]
      have := confirmLoop_polling values.rpc_client sig fuel 0
        (fun j hj => by rw [Nat.zero_add]; exact hfalse j hj)
      rw [this]
    · intro s c hmem
      rw [hloop] at hmem
      simp at hmem
      exact confirmLoop_events values.rpc_client sig fuel 0 s c hmem

/-- C2 witness: an oracle confirming at the first poll yields the signature. -/
theorem transfer_sol_confirmation_poll_witness :
    (transfer_sol pubkeyDecodeOk
      { signer := ⟨0⟩, rpc_client := rpcAllOk, balance := some 1000000000
        receiver_value := (addr32, "1") } 1).1 = .ok "sig" :=
  ((transfer_sol_confirmation_poll pubkeyDecodeOk
      { signer := ⟨0⟩, rpc_client := rpcAllOk, balance := some 1000000000
        receiver_value := (addr32, "1") } 1 1 1000000000 7 0 (by decide) rfl rfl
      (by decide) (by decide) rfl).2 "sig" rfl).2.1 0 (by decide)
    (fun j hj => absurd hj (by omega)) rfl

/-! ## Decimal rendering, for the reconstruction round-trip -/

/-- Decimal digit characters of `n`, most significant first; `fuel` bounds
the recursion and any `fuel > n` is enough. -/
def natToDigitsGo : Nat → Nat → List Char
  | 0, _ => []
  | fuel + 1, n =>
    if n < 10 then [Char.ofNat (48 + n)]
    else natToDigitsGo fuel (n / 10) ++ [Char.ofNat (48 + n % 10)]

/-- Decimal digit characters of `n`, most significant first. -/
def natToDigits (n : Nat) : List Char := natToDigitsGo (n + 1) n

/-- The spec's reconstruction of a decimal string from a parsed amount:
the integer part `v / 10^9`, a decimal point, then the remainder
`v % 10^9` written as exactly 9 digits. -/
def reconstruct (v : Nat) : String :=
  let fr := natToDigits (v % LAMPORTS_PER_SOL)
  String.mk (natToDigits (v / LAMPORTS_PER_SOL) ++
    '.' :: (List.replicate (9 - fr.length) '0' ++ fr))

/-- A well-formed decimal amount string: either all digits, or digits,
one decimal point, then at most 9 fractional digits. -/
def ValidDecimal (s : String) : Prop :=
  (s.data ≠ [] ∧ s.data.all Char.isDigit = true) ∨
  (∃ ip fp, s.data = ip ++ '.' :: fp ∧ ip ≠ [] ∧ fp ≠ [] ∧
    ip.all Char.isDigit = true ∧ fp.all Char.isDigit = true ∧ fp.length ≤ 9)

theorem char_ofNat_digit_toNat (d : Nat) (h : d < 10) :
    (Char.ofNat (48 + d)).toNat = 48 + d := by
  interval_cases d <;> rfl

theorem char_ofNat_digit_isDigit (d : Nat) (h : d < 10) :
    (Char.ofNat (48 + d)).isDigit = true := by
  interval_cases d <;> rfl

theorem digitsToNat_append_digit (l : List Char) (c : Char) :
    digitsToNat (l ++ [c]) = digitsToNat l * 10 + (c.toNat - 48) := by
  simp [digitsToNat, List.foldl_append]

theorem natToDigitsGo_digitsToNat : ∀ (fuel n : Nat), n < fuel →
    digitsToNat (natToDigitsGo fuel n) = n := by
  intro fuel
  induction fuel with
  | zero => intro n h; omega
  | succ f ih =>
    intro n h
    by_cases h10 : n < 10
    · simp only [natToDigitsGo, if_pos h10, digitsToNat, List.foldl_cons, List.foldl_nil]
      rw [char_ofNat_digit_toNat n h10]
      omega
    · have hd : n / 10 < f := by omega
      simp only [natToDigitsGo, if_neg h10]
      rw [digitsToNat_append_digit, ih (n / 10) hd,
        char_ofNat_digit_toNat (n % 10) (by omega)]
      omega

theorem natToDigitsGo_all_digits : ∀ (fuel n : Nat), n < fuel →
    (natToDigitsGo fuel n).all Char.isDigit = true := by
  intro fuel
  induction fuel with
  | zero => intro n h; omega
  | succ f ih =>
    intro n h
    by_cases h10 : n < 10
    · simp [natToDigitsGo, if_pos h10, char_ofNat_digit_isDigit n h10]
    · have hd : n / 10 < f := by omega
      simp [natToDigitsGo, if_neg h10, List.all_append, ih (n / 10) hd,
        char_ofNat_digit_isDigit (n % 10) (by omega)]

theorem natToDigitsGo_ne_nil : ∀ (fuel n : Nat), n < fuel →
    natToDigitsGo fuel n ≠ [] := by
  intro fuel
  induction fuel with
  | zero => intro n h; omega
  | succ f ih =>
    intro n h
    by_cases h10 : n < 10 <;> simp [natToDigitsGo, h10]

theorem natToDigitsGo_length_le : ∀ (fuel n k : Nat), n < fuel → n < 10 ^ k →
    1 ≤ k → (natToDigitsGo fuel n).length ≤ k := by
  intro fuel
  induction fuel with
  | zero => intro n k h; omega
  | succ f ih =>
    intro n k h hk h1
    by_cases h10 : n < 10
    · simpa [natToDigitsGo, if_pos h10] using h1
    · have hk2 : 2 ≤ k := by
        by_contra hh
        have : k = 1 := by omega
        subst this
        norm_num at hk
        omega
      have hpow : (10 : Nat) ^ k = 10 ^ (k - 1) * 10 := by
        rw [← pow_succ]
        congr 1
        omega
      have hdiv : n / 10 < 10 ^ (k - 1) := by
        rw [Nat.div_lt_iff_lt_mul (by norm_num)]
        rw [hpow] at hk
        exact hk
      have := ih (n / 10) (k - 1) (by omega) hdiv (by omega)
      simp only [natToDigitsGo, if_neg h10, List.length_append, List.length_cons,
        List.length_nil]
      omega

theorem natToDigits_digitsToNat (n : Nat) : digitsToNat (natToDigits n) = n :=
  natToDigitsGo_digitsToNat (n + 1) n (Nat.lt_succ_self n)

theorem natToDigits_all_digits (n : Nat) :
    (natToDigits n).all Char.isDigit = true :=
  natToDigitsGo_all_digits (n + 1) n (Nat.lt_succ_self n)

theorem natToDigits_ne_nil (n : Nat) : natToDigits n ≠ [] :=
  natToDigitsGo_ne_nil (n + 1) n (Nat.lt_succ_self n)

theorem natToDigits_length_le (n k : Nat) (h : n < 10 ^ k) (h1 : 1 ≤ k) :
    (natToDigits n).length ≤ k :=
  natToDigitsGo_length_le (n + 1) n k (Nat.lt_succ_self n) h h1

theorem foldl_digits_replicate_zero (k : Nat) :
    List.foldl (fun a c => a * 10 + (c.toNat - 48)) 0 (List.replicate k '0') = 0 := by
  induction k with
  | zero => rfl
  | succ n ih => simpa [List.replicate_succ] using ih

theorem digitsToNat_replicate_zero_append (k : Nat) (l : List Char) :
    digitsToNat (List.replicate k '0' ++ l) = digitsToNat l := by
  unfold digitsToNat
  rw [List.foldl_append, foldl_digits_replicate_zero]

theorem replicate_zero_all_digits (k : Nat) :
    (List.replicate k '0').all Char.isDigit = true := by
  induction k with
  | zero => rfl
  | succ n ih => simp [List.replicate_succ, ih]

theorem all_digits_not_mem_dot (l : List Char)
    (h : l.all Char.isDigit = true) : '.' ∉ l := by
  intro hmem
  have := List.all_eq_true.mp h '.' hmem
  exact absurd this (by decide)

theorem char_ofNat_digit_utf8Size (d : Nat) (h : d < 10) :
    (Char.ofNat (48 + d)).utf8Size = 1 := by
  interval_cases d <;> rfl

theorem natToDigitsGo_utf8Size : ∀ (fuel n : Nat), n < fuel →
    ∀ c ∈ natToDigitsGo fuel n, c.utf8Size = 1 := by
  intro fuel
  induction fuel with
  | zero => intro n h; omega
  | succ f ih =>
    intro n h c hc
    by_cases h10 : n < 10
    · simp only [natToDigitsGo, if_pos h10, List.mem_singleton] at hc
      subst hc
      exact char_ofNat_digit_utf8Size n h10
    · have hd : n / 10 < f := by omega
      simp only [natToDigitsGo, if_neg h10, List.mem_append, List.mem_singleton] at hc
      rcases hc with hc | hc
      · exact ih (n / 10) hd c hc
      · subst hc
        exact char_ofNat_digit_utf8Size (n % 10) (by omega)

theorem natToDigits_utf8Size (n : Nat) : ∀ c ∈ natToDigits n, c.utf8Size = 1 :=
  natToDigitsGo_utf8Size (n + 1) n (Nat.lt_succ_self n)

theorem takeBytes_ascii (l : List Char) :
    ∀ n : Nat, (∀ c ∈ l, c.utf8Size = 1) → n ≤ l.length →
      takeBytes l n = some (l.take n) := by
  induction l with
  | nil =>
    intro n _ hn
    have : n = 0 := by simpa using hn
    subst this
    rfl
  | cons c cs ih =>
    intro n hall hn
    cases n with
    | zero => rfl
    | succ m =>
      have hc : c.utf8Size = 1 := hall c (List.mem_cons_self c cs)
      have hrec := ih m (fun x hx => hall x (List.mem_cons_of_mem _ hx))
        (by simpa using hn)
      simp only [takeBytes, hc]
      rw [if_pos (by omega), Nat.add_sub_cancel, hrec]
      simp [List.take_succ_cons]

theorem parse_amount_of_parts (s : String) (p q fr : List Char) (a b : Nat)
    (hsp : splitDot s.data = [p, q])
    (hp : parseU64 p = some a)
    (hq : padTruncate9 q = some fr)
    (hfr : parseU64 fr = some b)
    (hmul : a * LAMPORTS_PER_SOL < u64Size)
    (hadd : a * LAMPORTS_PER_SOL + b < u64Size) :
    parse_amount s = some (.ok (a * LAMPORTS_PER_SOL + b)) := by
  unfold parse_amount
  rw [hsp]
  simp [hp, hq, hfr, checked_mul, checked_add, hmul, hadd]

/-- Re-parsing the reconstructed decimal string of any 64-bit value recovers
that value. -/
theorem parse_amount_reconstruct (v : Nat) (hv : v < u64Size) :
    parse_amount (reconstruct v) = some (.ok v) := by
  have hL : 0 < LAMPORTS_PER_SOL := by norm_num [LAMPORTS_PER_SOL]
  have hip_all := natToDigits_all_digits (v / LAMPORTS_PER_SOL)
  have hfr_all := natToDigits_all_digits (v % LAMPORTS_PER_SOL)
  have hfr_le : (natToDigits (v % LAMPORTS_PER_SOL)).length ≤ 9 := by
    refine natToDigits_length_le _ 9 ?_ (by norm_num)
    have := Nat.mod_lt v hL
    norm_num [LAMPORTS_PER_SOL] at this ⊢
    exact this
  have hfp_all :
      (List.replicate (9 - (natToDigits (v % LAMPORTS_PER_SOL)).length) '0' ++
        natToDigits (v % LAMPORTS_PER_SOL)).all Char.isDigit = true := by
    rw [List.all_append, replicate_zero_all_digits, hfr_all]
    rfl
  have hfp_len :
      (List.replicate (9 - (natToDigits (v % LAMPORTS_PER_SOL)).length) '0' ++
        natToDigits (v % LAMPORTS_PER_SOL)).length = 9 := by
    simp only [List.length_append, List.length_replicate]
    omega
  have hdata : (reconstruct v).data =
      natToDigits (v / LAMPORTS_PER_SOL) ++
        '.' :: (List.replicate (9 - (natToDigits (v % LAMPORTS_PER_SOL)).length) '0' ++
          natToDigits (v % LAMPORTS_PER_SOL)) := rfl
  have hsplit : splitDot (reconstruct v).data =
      [natToDigits (v / LAMPORTS_PER_SOL),
        List.replicate (9 - (natToDigits (v % LAMPORTS_PER_SOL)).length) '0' ++
          natToDigits (v % LAMPORTS_PER_SOL)] := by
    rw [hdata, splitDot_append _ _ (all_digits_not_mem_dot _ hip_all),
      splitDot_no_dot _ (all_digits_not_mem_dot _ hfp_all)]
  have hip_val : parseU64 (natToDigits (v / LAMPORTS_PER_SOL)) =
      some (v / LAMPORTS_PER_SOL) := by
    rw [parseU64_all_digits _ (natToDigits_ne_nil _) hip_all,
      natToDigits_digitsToNat]
    exact if_pos (lt_of_le_of_lt (Nat.div_le_self v LAMPORTS_PER_SOL) hv)
  have hfp_size : ∀ c ∈
      List.replicate (9 - (natToDigits (v % LAMPORTS_PER_SOL)).length) '0' ++
        natToDigits (v % LAMPORTS_PER_SOL), c.utf8Size = 1 := by
    intro c hc
    rcases List.mem_append.mp hc with hc | hc
    · rw [List.eq_of_mem_replicate hc]
      rfl
    · exact natToDigits_utf8Size _ c hc
  have hpad : padTruncate9
      (List.replicate (9 - (natToDigits (v % LAMPORTS_PER_SOL)).length) '0' ++
        natToDigits (v % LAMPORTS_PER_SOL)) =
      some (List.replicate (9 - (natToDigits (v % LAMPORTS_PER_SOL)).length) '0' ++
        natToDigits (v % LAMPORTS_PER_SOL)) := by
    unfold padTruncate9
    rw [hfp_len]
    simp only [Nat.sub_self, List.replicate_zero, List.append_nil]
    rw [takeBytes_ascii _ 9 hfp_size (le_of_eq hfp_len.symm)]
    rw [List.take_of_length_le (le_of_eq hfp_len)]
  have hfp_val : parseU64
      (List.replicate (9 - (natToDigits (v % LAMPORTS_PER_SOL)).length) '0' ++
        natToDigits (v % LAMPORTS_PER_SOL)) = some (v % LAMPORTS_PER_SOL) := by
    rw [parseU64_all_digits _ ?_ hfp_all]
    · rw [digitsToNat_replicate_zero_append, natToDigits_digitsToNat]
      exact if_pos (lt_of_le_of_lt (Nat.mod_le v LAMPORTS_PER_SOL) hv)
    · intro hnil
      rw [hnil] at hfp_len
      simp at hfp_len
  have hid : v / LAMPORTS_PER_SOL * LAMPORTS_PER_SOL + v % LAMPORTS_PER_SOL = v := by
    rw [Nat.mul_comm]
    exact Nat.div_add_mod v LAMPORTS_PER_SOL
  have hmul : v / LAMPORTS_PER_SOL * LAMPORTS_PER_SOL < u64Size := by
    have := Nat.div_mul_le_self v LAMPORTS_PER_SOL
    omega
  have hadd : v / LAMPORTS_PER_SOL * LAMPORTS_PER_SOL + v % LAMPORTS_PER_SOL
      < u64Size := by
    rw [hid]
    exact hv
  have := parse_amount_of_parts (reconstruct v) _ _ _ _ _
    hsplit hip_val hpad hfp_val hmul hadd
  rw [this, hid]

/-- C8: for every valid decimal string with at most 9 fractional digits that
`parse_amount` accepts, reconstructing `integer.fraction` from the parsed
value and re-parsing yields the same amount. -/
theorem parse_amount_reconstruct_roundtrip (s : String) (v : Nat)
    (hs : ValidDecimal s) (hok : parse_amount s = some (.ok v)) :
    parse_amount (reconstruct v) = parse_amount s := by
  rw [hok]
  exact parse_amount_reconstruct v (parse_amount_ok_lt s v hok)

/-- C8 witness at the valid decimal string `"3.14"`. -/
theorem parse_amount_reconstruct_roundtrip_witness :
    ValidDecimal "3.14" ∧ parse_amount "3.14" = some (.ok 3140000000) ∧
    parse_amount (reconstruct 3140000000) = parse_amount "3.14" := by
  have hs : ValidDecimal "3.14" :=
    Or.inr ⟨['3'], ['1', '4'], rfl, by decide, by decide, by decide, by decide,
      by decide⟩
  exact ⟨hs, rfl, parse_amount_reconstruct_roundtrip "3.14" 3140000000 hs rfl⟩

end SolExec
